import Mathlib

/-!
Verification of the `xous-semver` version-identifier codec.

The development shallowly embeds `src/lib.rs`: the `SemVer` struct, its
string parser `from_str`, the byte codec (`From<[u8;16]>` / `Into<[u8;16]>`,
here `decode` / `encode`), the ordering (`Ord for SemVer`), the equality
(`PartialEq for SemVer`) and the formatter (`to_string`).

Rust `u16`/`u32` values are modelled as `Nat` with explicit bounds where they
matter; Rust strings are modelled as `List Char` (a `&str` viewed as its
sequence of Unicode scalar values), with UTF-8 byte lengths computed by
`Char.utf8Size` where the source indexes by bytes.  A Rust panic (reachable
in `from_str` through the byte slice `&c[..8]` landing inside a multi-byte
character) is modelled by the `ParseResult.crash` outcome.
-/

namespace XousSemver

/-- The `SemVer` struct of `src/lib.rs`: `maj`, `min`, `rev`, `extra` are
`u16` fields (modelled as `Nat`), `commit` is `Option<u32>`. -/
@[ext]
structure SemVer where
  maj : Nat
  min : Nat
  rev : Nat
  extra : Nat
  commit : Option Nat
deriving DecidableEq, Repr

/-- The `&'static str` error messages of `from_str`, as an enumeration:
`noLeadingV` is "semver does not start with 'v'!", `wrongFieldCount` is
"semver string has wrong number of fields", and the remaining constructors
are the "error parsing …" messages for the respective field. -/
inductive ParseErr where
  | noLeadingV
  | wrongFieldCount
  | badExtra
  | badMaj
  | badMin
  | badRev
  | badCommit
deriving DecidableEq, Repr

/-- Outcome of running `SemVer::from_str`: `ok` for `Ok(SemVer)`, `err` for
`Err(&'static str)`, and `crash` for a Rust panic (the byte-slice
`&c[..8]` panics when byte 8 is not a char boundary). -/
inductive ParseResult where
  | ok : SemVer → ParseResult
  | err : ParseErr → ParseResult
  | crash : ParseResult
deriving DecidableEq, Repr

/-- Code points with the Unicode `White_Space` property, the set trimmed by
Rust's `str::trim_end` (via `char::is_whitespace`). -/
def wsCodes : List Nat :=
  [0x09, 0x0A, 0x0B, 0x0C, 0x0D, 0x20, 0x85, 0xA0, 0x1680,
   0x2000, 0x2001, 0x2002, 0x2003, 0x2004, 0x2005, 0x2006, 0x2007,
   0x2008, 0x2009, 0x200A, 0x2028, 0x2029, 0x202F, 0x205F, 0x3000]

/-- Rust `char::is_whitespace`. -/
def isRustWhitespace (c : Char) : Bool :=
  wsCodes.contains c.toNat

/-- Rust `str::trim_end`: remove trailing whitespace characters. -/
def trimEnd (l : List Char) : List Char :=
  (l.reverse.dropWhile isRustWhitespace).reverse

/-- Rust `str::strip_prefix('v')`. -/
def stripV : List Char → Option (List Char)
  | [] => none
  | c :: rest => if c = 'v' then some rest else none

/-- Rust `str::strip_prefix('g')`. -/
def stripG : List Char → Option (List Char)
  | [] => none
  | c :: rest => if c = 'g' then some rest else none

/-- Whether a character is one of the two separators `.` and `-` used by
`revstr.split(['.', '-'])`. -/
def isSep (c : Char) : Bool :=
  c == '.' || c == '-'

/-- Rust `str::split(['.', '-'])` collected into a `Vec`: split at every
occurrence of either separator, keeping empty fields (the empty string
yields one empty field). -/
def splitChars : List Char → List (List Char)
  | [] => [[]]
  | c :: rest =>
    if isSep c then [] :: splitChars rest
    else
      match splitChars rest with
      | [] => [[c]]
      | f :: fs => (c :: f) :: fs

/-- Rust `char::to_digit(10)`. -/
def decDigitVal (ch : Char) : Option Nat :=
  if 48 ≤ ch.toNat ∧ ch.toNat ≤ 57 then some (ch.toNat - 48) else none

/-- Rust `char::to_digit(16)` (case-insensitive hexadecimal). -/
def hexDigitVal (ch : Char) : Option Nat :=
  if 48 ≤ ch.toNat ∧ ch.toNat ≤ 57 then some (ch.toNat - 48)
  else if 97 ≤ ch.toNat ∧ ch.toNat ≤ 102 then some (ch.toNat - 87)
  else if 65 ≤ ch.toNat ∧ ch.toNat ≤ 70 then some (ch.toNat - 55)
  else none

/-- Digit-accumulation loop of Rust `from_str_radix` for an unsigned type
with maximum value `maxv`: each step multiplies by the radix and adds the
next digit, failing on an invalid digit or on overflow past `maxv`. -/
def goParse (digit : Char → Option Nat) (radix maxv : Nat) :
    List Char → Nat → Option Nat
  | [], acc => some acc
  | ch :: rest, acc =>
    match digit ch with
    | none => none
    | some d =>
      if acc * radix + d > maxv then none
      else goParse digit radix maxv rest (acc * radix + d)

/-- Rust `from_str_radix` for an unsigned integer type: the empty string is
an error; one leading `+` is allowed (but `+` alone is an error); a leading
`-` is not consumed for unsigned types and fails as an invalid digit. -/
def parseUnsigned (digit : Char → Option Nat) (radix maxv : Nat)
    (l : List Char) : Option Nat :=
  match l with
  | [] => none
  | '+' :: rest => if rest.isEmpty then none else goParse digit radix maxv rest 0
  | _ => goParse digit radix maxv l 0

/-- Rust `u16::from_str_radix(s, 10)`. -/
def parse_u16_dec (l : List Char) : Option Nat :=
  parseUnsigned decDigitVal 10 65535 l

/-- Rust `u32::from_str_radix(s, 16)`. -/
def parse_u32_hex (l : List Char) : Option Nat :=
  parseUnsigned hexDigitVal 16 4294967295 l

/-- UTF-8 byte length of a string, Rust `str::len`. -/
def utf8Len (l : List Char) : Nat :=
  (l.map Char.utf8Size).sum

/-- Rust byte slice `&s[..n]`: the prefix occupying exactly the first `n`
UTF-8 bytes, or `none` (a panic) when byte index `n` is out of range or not
a character boundary. -/
def takeBytes : Nat → List Char → Option (List Char)
  | 0, _ => some []
  | _ + 1, [] => none
  | n + 1, ch :: rest =>
    if ch.utf8Size ≤ n + 1 then (takeBytes (n + 1 - ch.utf8Size) rest).map (ch :: ·)
    else none

/-- The truncation `let trunc = if c.len() > 8 { &c[..8] } else { c }` of
`from_str`; `none` models the panic of the byte slice. -/
def gTrunc (c : List Char) : Option (List Char) :=
  if utf8Len c > 8 then takeBytes 8 c else some c

/-- Body of `SemVer::from_str` after the leading-`v` strip and the
`split(['.', '-'])`: field-count check, `extra` computation, then the
struct literal parsing `maj`, `min`, `rev` and the commit suffix in source
order. -/
def fromVer (ver : List (List Char)) : ParseResult :=
  if ver.length ≠ 4 ∧ ver.length ≠ 5 ∧ ver.length ≠ 3 then .err .wrongFieldCount
  else
    let extraOpt : Option Nat :=
      if ver.length = 5 then parse_u16_dec (ver.getD 3 [])
      else if ver.length = 4 then
        if (stripG (ver.getD 3 [])).isSome then some 0
        else parse_u16_dec (ver.getD 3 [])
      else some 0
    match extraOpt with
    | none => .err .badExtra
    | some extra =>
      match parse_u16_dec (ver.getD 0 []) with
      | none => .err .badMaj
      | some maj =>
        match parse_u16_dec (ver.getD 1 []) with
        | none => .err .badMin
        | some mn =>
          match parse_u16_dec (ver.getD 2 []) with
          | none => .err .badRev
          | some rv =>
            match stripG (ver.getD (ver.length - 1) []) with
            | none => .ok ⟨maj, mn, rv, extra, none⟩
            | some ctail =>
              match gTrunc ctail with
              | none => .crash
              | some trunc =>
                match parse_u32_hex trunc with
                | none => .err .badCommit
                | some cm => .ok ⟨maj, mn, rv, extra, some cm⟩

/-- `SemVer::from_str`: trim trailing whitespace, require a leading `v`
(`ok_or` turns its absence into an error), split on `.` and `-`, then parse
the fields. -/
def from_str (revstr : String) : ParseResult :=
  match stripV (trimEnd revstr.data) with
  | none => .err .noLeadingV
  | some rest => fromVer (splitChars rest)

/-! ### The byte codec: `Into<[u8; 16]>` (encode) and `From<[u8; 16]>` (decode) -/

/-- `u16::to_le_bytes`. -/
def u16le (n : Nat) : List Nat :=
  [n % 256, n / 256 % 256]

/-- `u32::to_le_bytes`. -/
def u32le (n : Nat) : List Nat :=
  [n % 256, n / 256 % 256, n / 65536 % 256, n / 16777216 % 256]

/-- `Into::<[u8; 16]>::into`, the 16 output bytes in order: little-endian
`maj`, `min`, `rev`, `extra`, then `commit.unwrap_or(0)` and the presence
word (`1u32` if `commit.is_some()` else `0u32`). -/
def encode (v : SemVer) : List Nat :=
  u16le v.maj ++ u16le v.min ++ u16le v.rev ++ u16le v.extra ++
    u32le (v.commit.getD 0) ++ u32le (if v.commit.isSome then 1 else 0)

/-- `u16::from_le_bytes`. -/
def u16fromLE (b0 b1 : Nat) : Nat :=
  b0 + 256 * b1

/-- `u32::from_le_bytes`. -/
def u32fromLE (b0 b1 b2 b3 : Nat) : Nat :=
  b0 + 256 * b1 + 65536 * b2 + 16777216 * b3

/-- `From::<[u8; 16]>::from`: read the four `u16` fields little-endian, and
take the commit value from bytes 8..12 exactly when the presence word at
bytes 12..16 is nonzero.  The input is the 16-byte array, as a list. -/
def decode (bytes : List Nat) : SemVer :=
  let b := fun i => bytes.getD i 0
  let has_commit := u32fromLE (b 12) (b 13) (b 14) (b 15)
  { maj := u16fromLE (b 0) (b 1)
    min := u16fromLE (b 2) (b 3)
    rev := u16fromLE (b 4) (b 5)
    extra := u16fromLE (b 6) (b 7)
    commit := if has_commit ≠ 0 then some (u32fromLE (b 8) (b 9) (b 10) (b 11))
              else none }

/-! ### Ordering, equality, formatting -/

/-- `Ord::cmp` on an unsigned integer. -/
def rcmp (x y : Nat) : Ordering :=
  if x < y then .lt else if y < x then .gt else .eq

/-- The packed `u64` of `Ord for SemVer`:
`(maj << 48) | (min << 32) | (rev << 16) | extra`, reduced modulo `2^64`
as the Rust shifts and ors live in `u64`. -/
def pack (v : SemVer) : Nat :=
  ((v.maj <<< 48) ||| (v.min <<< 32) ||| (v.rev <<< 16) ||| v.extra) % 2 ^ 64

/-- `Ord::cmp for SemVer`: numeric comparison of the packed `u64`s;
`commit` does not participate. -/
def semver_cmp (a b : SemVer) : Ordering :=
  rcmp (pack a) (pack b)

/-- `PartialEq::eq for SemVer`: field-wise equality including `commit`. -/
def semver_eq (a b : SemVer) : Bool :=
  a.maj == b.maj && a.min == b.min && a.rev == b.rev &&
    a.extra == b.extra && a.commit == b.commit

/-- Decimal digits of a number, most significant first (Rust `{}` on an
unsigned integer). -/
def decChars (n : Nat) : List Char :=
  Nat.toDigits 10 n

/-- Lowercase hexadecimal digits of a number, most significant first, no
padding (Rust `{:x}`). -/
def hexChars (n : Nat) : List Char :=
  Nat.toDigits 16 n

/-- `SemVer::to_string`: `format!("v{}.{}.{}-{}-g{:x}", ...)` when a commit
is present, `format!("v{}.{}.{}-{}", ...)` otherwise. -/
def to_string (v : SemVer) : String :=
  match v.commit with
  | some c =>
    String.mk ('v' :: decChars v.maj ++ '.' :: decChars v.min ++
      '.' :: decChars v.rev ++ '-' :: decChars v.extra ++ '-' :: 'g' :: hexChars c)
  | none =>
    String.mk ('v' :: decChars v.maj ++ '.' :: decChars v.min ++
      '.' :: decChars v.rev ++ '-' :: decChars v.extra)

/-- Comparison of two 4-tuples of unsigned integers as the spec words the
ordering: lexicographic over `(major, minor, patch, distance)`, strictly
ascending precedence in that order, `commit` never participating.  This is
the spec-side definition that `Ord for SemVer` is checked against. -/
def lexCmpSpec (a1 b1 c1 d1 a2 b2 c2 d2 : Nat) : Ordering :=
  if a1 ≠ a2 then rcmp a1 a2
  else if b1 ≠ b2 then rcmp b1 b2
  else if c1 ≠ c2 then rcmp c1 c2
  else rcmp d1 d2

/-- The canonical string form as the spec words it:
`v{major}.{minor}.{patch}-{distance}`, with `-g{commit in lowercase
hexadecimal, no leading zero padding}` appended exactly when `commit` is
present.  This is the spec-side definition that `to_string` is checked
against. -/
def canonicalFormat (v : SemVer) : String :=
  let base := "v" ++ String.mk (decChars v.maj) ++ "." ++ String.mk (decChars v.min) ++
    "." ++ String.mk (decChars v.rev) ++ "-" ++ String.mk (decChars v.extra)
  match v.commit with
  | some c => base ++ "-g" ++ String.mk (hexChars c)
  | none => base

/-- Exchanging the two separator characters: `.` becomes `-`, `-` becomes
`.`, everything else is unchanged. -/
def swapSep (c : Char) : Char :=
  if c = '.' then '-' else if c = '-' then '.' else c

/-! ### Helper lemmas -/

/-- Evaluating `fromVer` on five fields whose last does not start with `g`:
the commit is silently absent. -/
lemma fromVer_five (f0 f1 f2 f3 f4 : List Char) (a b c d : Nat)
    (hg : stripG f4 = none) (hd : parse_u16_dec f3 = some d)
    (ha : parse_u16_dec f0 = some a) (hb : parse_u16_dec f1 = some b)
    (hc : parse_u16_dec f2 = some c) :
    fromVer [f0, f1, f2, f3, f4] = .ok ⟨a, b, c, d, none⟩ := by
  unfold fromVer
  simp [ha, hb, hc, hd, hg]

/-- Evaluating `fromVer` on four fields whose last starts with `g`: the
distance is zero and the commit is hex-parsed from the truncated tail. -/
lemma fromVer_four_g (f0 f1 f2 f3 g t : List Char) (a b c cm : Nat)
    (hg : stripG f3 = some g) (ht : gTrunc g = some t)
    (hx : parse_u32_hex t = some cm)
    (ha : parse_u16_dec f0 = some a) (hb : parse_u16_dec f1 = some b)
    (hc : parse_u16_dec f2 = some c) :
    fromVer [f0, f1, f2, f3] = .ok ⟨a, b, c, 0, some cm⟩ := by
  unfold fromVer
  simp [ha, hb, hc, hg, ht, hx]

/-- Evaluating `fromVer` on four fields whose last does not start with `g`:
the last field is the distance and the commit is absent. -/
lemma fromVer_four_nog (f0 f1 f2 f3 : List Char) (a b c d : Nat)
    (hg : stripG f3 = none) (hd : parse_u16_dec f3 = some d)
    (ha : parse_u16_dec f0 = some a) (hb : parse_u16_dec f1 = some b)
    (hc : parse_u16_dec f2 = some c) :
    fromVer [f0, f1, f2, f3] = .ok ⟨a, b, c, d, none⟩ := by
  unfold fromVer
  simp [ha, hb, hc, hd, hg]

/-! ### The claims -/

/-- Claim C1, counterexample: an otherwise well-formed version string
without the leading `v` does not parse; the same string with the `v` does.
The code's `ok_or` makes the missing `v` a hard error, refuting the claim
that its absence is tolerated. -/
theorem claim1_counterexample :
    from_str "0.9.8" = .err .noLeadingV ∧ from_str "v0.9.8" = .ok ⟨0, 9, 8, 0, none⟩ := by
  decide

/-- Claim C1 (amended): after trailing whitespace is trimmed, a leading `v`
is required; whenever the trimmed input does not start with `v`, parsing
fails with the missing-`v` error. -/
theorem claim1_v_required (s : String) (h : (trimEnd s.data).head? ≠ some 'v') :
    from_str s = .err .noLeadingV := by
  unfold from_str
  cases htr : trimEnd s.data with
  | nil => simp [stripV]
  | cons c t =>
    rw [htr] at h
    have hcv : c ≠ 'v' := by
      intro hc
      exact h (by simp [hc])
    simp [stripV, hcv]

/-- Witness for the amended claim C1 at the concrete input `"0.9.8"`. -/
theorem claim1_witness :
    (trimEnd ("0.9.8" : String).data).head? ≠ some 'v' ∧
      from_str "0.9.8" = .err .noLeadingV :=
  ⟨by decide, claim1_v_required "0.9.8" (by decide)⟩

/-- Claim C2, counterexample: `"v1.2.3-4-5"` splits into five fields whose
last does not start with `g`, yet parsing succeeds silently with an absent
commit instead of failing with a malformed-version error. -/
theorem claim2_counterexample :
    from_str "v1.2.3-4-5" = .ok ⟨1, 2, 3, 4, none⟩ := by
  decide

/-- Claim C2 (amended): when the input splits into five fields (a
distance_str and a commit_str after the patch field) and commit_str does
not start with `g`, parsing does not fail: it silently succeeds with
`commit = None`, provided the four numeric fields parse. -/
theorem claim2_missing_g_silent (s : String) (rest f0 f1 f2 f3 f4 : List Char)
    (a b c d : Nat)
    (hv : stripV (trimEnd s.data) = some rest)
    (hsp : splitChars rest = [f0, f1, f2, f3, f4])
    (hg : stripG f4 = none)
    (hd : parse_u16_dec f3 = some d)
    (ha : parse_u16_dec f0 = some a) (hb : parse_u16_dec f1 = some b)
    (hc : parse_u16_dec f2 = some c) :
    from_str s = .ok ⟨a, b, c, d, none⟩ := by
  unfold from_str
  rw [hv]
  show fromVer (splitChars rest) = _
  rw [hsp]
  exact fromVer_five f0 f1 f2 f3 f4 a b c d hg hd ha hb hc

/-- Witness for the amended claim C2 at the concrete input `"v1.2.3-4-5"`. -/
theorem claim2_witness :
    stripG ("5" : String).data = none ∧ from_str "v1.2.3-4-5" = .ok ⟨1, 2, 3, 4, none⟩ :=
  ⟨by decide,
   claim2_missing_g_silent "v1.2.3-4-5" ("1.2.3-4-5" : String).data
     ("1" : String).data ("2" : String).data ("3" : String).data
     ("4" : String).data ("5" : String).data 1 2 3 4
     (by decide) (by decide) (by decide) (by decide) (by decide) (by decide) (by decide)⟩

/-- Claim C7: when the remainder after the patch field is a single token
(four fields in total), a `g`-prefixed token yields distance 0 and a
hex-parsed commit, and any other token is the decimal distance with no
commit. -/
theorem claim7_single_token (s : String) (rest f0 f1 f2 f3 : List Char) (a b c : Nat)
    (hv : stripV (trimEnd s.data) = some rest)
    (hsp : splitChars rest = [f0, f1, f2, f3])
    (ha : parse_u16_dec f0 = some a) (hb : parse_u16_dec f1 = some b)
    (hc : parse_u16_dec f2 = some c) :
    (∀ g t cm, stripG f3 = some g → gTrunc g = some t → parse_u32_hex t = some cm →
      from_str s = .ok ⟨a, b, c, 0, some cm⟩) ∧
    (∀ d, stripG f3 = none → parse_u16_dec f3 = some d →
      from_str s = .ok ⟨a, b, c, d, none⟩) := by
  constructor
  · intro g t cm hg ht hx
    unfold from_str
    rw [hv]
    show fromVer (splitChars rest) = _
    rw [hsp]
    exact fromVer_four_g f0 f1 f2 f3 g t a b c cm hg ht hx ha hb hc
  · intro d hg hd
    unfold from_str
    rw [hv]
    show fromVer (splitChars rest) = _
    rw [hsp]
    exact fromVer_four_nog f0 f1 f2 f3 a b c d hg hd ha hb hc

/-- Witness for claim C7 at the two concrete inputs of the spec:
`"v0.9.8-gabcd1234"` (commit-only suffix) and `"v0.9.8-760"` (distance-only
suffix). -/
theorem claim7_witness :
    from_str "v0.9.8-gabcd1234" = .ok ⟨0, 9, 8, 0, some 0xabcd1234⟩ ∧
      from_str "v0.9.8-760" = .ok ⟨0, 9, 8, 760, none⟩ :=
  ⟨(claim7_single_token "v0.9.8-gabcd1234" ("0.9.8-gabcd1234" : String).data
      ("0" : String).data ("9" : String).data ("8" : String).data
      ("gabcd1234" : String).data 0 9 8
      (by decide) (by decide) (by decide) (by decide) (by decide)).1
      ("abcd1234" : String).data ("abcd1234" : String).data 0xabcd1234
      (by decide) (by decide) (by decide),
   (claim7_single_token "v0.9.8-760" ("0.9.8-760" : String).data
      ("0" : String).data ("9" : String).data ("8" : String).data
      ("760" : String).data 0 9 8
      (by decide) (by decide) (by decide) (by decide) (by decide)).2
      760 (by decide) (by decide)⟩

/-- Claim C8, code bug: `from_str` is not total.  On the input
`"v1.2.3-g1234567é9"` the commit suffix after `g` is 10 UTF-8 bytes long
and byte index 8 falls inside the two-byte character `é`, so the byte slice
`&c[..8]` panics instead of returning a typed error. -/
theorem claim8_crash_on_multibyte :
    from_str "v1.2.3-g1234567é9" = .crash := by
  decide

/-- Exchanging the separators does not change whether a character is a
separator. -/
lemma isSep_swapSep (c : Char) : isSep (swapSep c) = isSep c := by
  unfold swapSep
  split_ifs with h1 h2
  · subst h1; decide
  · subst h2; decide
  · rfl

/-- Exchanging the separators fixes every non-separator character. -/
lemma swapSep_eq_self (c : Char) (h : isSep c = false) : swapSep c = c := by
  unfold isSep at h
  simp only [Bool.or_eq_false_iff, beq_eq_false_iff_ne, ne_eq] at h
  simp [swapSep, h.1, h.2]

/-- Exchanging the separators fixes `v` and maps nothing else to `v`. -/
lemma swapSep_eq_v_iff (c : Char) : swapSep c = 'v' ↔ c = 'v' := by
  unfold swapSep
  split_ifs with h1 h2
  · subst h1; decide
  · subst h2; decide
  · rfl

/-- Exchanging the separators does not change whether a character is
whitespace. -/
lemma isRustWhitespace_swapSep (c : Char) :
    isRustWhitespace (swapSep c) = isRustWhitespace c := by
  unfold swapSep
  split_ifs with h1 h2
  · subst h1; decide
  · subst h2; decide
  · rfl

/-- `trim_end` commutes with exchanging the separators. -/
lemma trimEnd_map_swap (l : List Char) :
    trimEnd (l.map swapSep) = (trimEnd l).map swapSep := by
  unfold trimEnd
  rw [← List.map_reverse, List.dropWhile_map]
  have h : (isRustWhitespace ∘ swapSep) = isRustWhitespace :=
    funext isRustWhitespace_swapSep
  rw [h, List.map_reverse]

/-- The split on `.` and `-` is unchanged when the two separators are
exchanged throughout the input. -/
lemma splitChars_map_swap (l : List Char) :
    splitChars (l.map swapSep) = splitChars l := by
  induction l with
  | nil => rfl
  | cons c rest ih =>
    simp only [List.map_cons, splitChars, isSep_swapSep]
    by_cases h : isSep c
    · simp [h, ih]
    · have hc : swapSep c = c := swapSep_eq_self c (by simpa using h)
      simp [h, hc, ih]

/-- `strip_prefix('v')` commutes with exchanging the separators. -/
lemma stripV_map_swap (l : List Char) :
    stripV (l.map swapSep) = (stripV l).map (List.map swapSep) := by
  cases l with
  | nil => rfl
  | cons c t =>
    simp only [List.map_cons, stripV]
    by_cases h : c = 'v'
    · subst h
      rw [show swapSep 'v' = 'v' from by decide]
      simp
    · have h2 : swapSep c ≠ 'v' := fun hc => h ((swapSep_eq_v_iff c).mp hc)
      simp [h, h2]

/-- Claim C9, counterexample: the separators are not position-specific —
`"v1.2.3.4"` (a fourth dot-separated field) and `"v1-2-3"` (dashes where
the dots belong) both parse successfully instead of failing. -/
theorem claim9_counterexample :
    from_str "v1.2.3.4" = .ok ⟨1, 2, 3, 4, none⟩ ∧
      from_str "v1-2-3" = .ok ⟨1, 2, 3, 0, none⟩ := by
  decide

/-- Claim C9 (amended): the parser treats `.` and `-` interchangeably — it
splits on both characters uniformly and only checks the total field count,
so exchanging the two separators anywhere in the input never changes the
result; in particular `"v1.2.3.4"` parses as `{1,2,3,4,None}` and
`"v1-2-3"` as `{1,2,3,0,None}`. -/
theorem claim9_separators_interchangeable :
    (∀ s : String, from_str (String.mk (s.data.map swapSep)) = from_str s) ∧
      from_str "v1.2.3.4" = .ok ⟨1, 2, 3, 4, none⟩ ∧
      from_str "v1-2-3" = .ok ⟨1, 2, 3, 0, none⟩ := by
  refine ⟨fun s => ?_, by decide, by decide⟩
  unfold from_str
  show (match stripV (trimEnd (s.data.map swapSep)) with
        | none => ParseResult.err ParseErr.noLeadingV
        | some rest => fromVer (splitChars rest)) = _
  rw [trimEnd_map_swap, stripV_map_swap]
  cases stripV (trimEnd s.data) with
  | none => rfl
  | some rest =>
    show fromVer (splitChars (rest.map swapSep)) = fromVer (splitChars rest)
    rw [splitChars_map_swap]

/-- Claim C3: round-trip law — decoding the 16-byte encoding of any
representable `VersionTag` (all four `u16` fields in range, commit in
`u32` range when present) yields the same value under the commit-sensitive
structural equality. -/
theorem claim3_round_trip (v : SemVer) (h1 : v.maj < 65536) (h2 : v.min < 65536)
    (h3 : v.rev < 65536) (h4 : v.extra < 65536)
    (h5 : ∀ c, v.commit = some c → c < 4294967296) :
    decode (encode v) = v := by
  obtain ⟨maj, mn, rv, ex, cm⟩ := v
  simp only at h1 h2 h3 h4
  cases cm with
  | none =>
    simp only [decode, encode, u16le, u32le, u16fromLE, u32fromLE,
      Option.getD_none, Option.isSome_none]
    simp [SemVer.mk.injEq]
    omega
  | some c =>
    have hc : c < 4294967296 := h5 c rfl
    simp only [decode, encode, u16le, u32le, u16fromLE, u32fromLE,
      Option.getD_some, Option.isSome_some]
    simp [SemVer.mk.injEq]
    omega

/-- Witness for claim C3 at the concrete value `{0,9,8,760,Some 0xabcd1234}`. -/
theorem claim3_witness :
    (0 : Nat) < 65536 ∧
      decode (encode ⟨0, 9, 8, 760, some 0xabcd1234⟩) = ⟨0, 9, 8, 760, some 0xabcd1234⟩ :=
  ⟨by decide,
   claim3_round_trip ⟨0, 9, 8, 760, some 0xabcd1234⟩ (by decide) (by decide) (by decide)
     (by decide) (by intro c hc; injection hc with h; omega)⟩

/-- Claim C5: decoding is a total function on 16-byte arrays; the commit is
present, with the little-endian value of bytes 8..12, exactly when the
4-byte presence word at bytes 12..16 is nonzero, and is `None` when the
presence word is zero regardless of bytes 8..11. -/
theorem claim5_decode_total (bytes : List Nat) (_hlen : bytes.length = 16)
    (_hb : ∀ x ∈ bytes, x < 256) :
    ((decode bytes).commit = none ↔
      u32fromLE (bytes.getD 12 0) (bytes.getD 13 0) (bytes.getD 14 0) (bytes.getD 15 0) = 0) ∧
    (u32fromLE (bytes.getD 12 0) (bytes.getD 13 0) (bytes.getD 14 0) (bytes.getD 15 0) ≠ 0 →
      (decode bytes).commit =
        some (u32fromLE (bytes.getD 8 0) (bytes.getD 9 0) (bytes.getD 10 0) (bytes.getD 11 0))) := by
  unfold decode
  by_cases h :
      u32fromLE (bytes.getD 12 0) (bytes.getD 13 0) (bytes.getD 14 0) (bytes.getD 15 0) = 0 <;>
    simp [h]

/-- Witness for claim C5 at the spec's stray-bits array: nonzero bytes at
offsets 8..11 but a zero presence word still decode to `commit = None`. -/
theorem claim5_witness :
    ([0, 0, 9, 0, 8, 0, 248, 2, 0x34, 0x12, 0xcd, 0xab, 0, 0, 0, 0] : List Nat).length = 16 ∧
      (decode [0, 0, 9, 0, 8, 0, 248, 2, 0x34, 0x12, 0xcd, 0xab, 0, 0, 0, 0]).commit = none :=
  ⟨by decide,
   (claim5_decode_total [0, 0, 9, 0, 8, 0, 248, 2, 0x34, 0x12, 0xcd, 0xab, 0, 0, 0, 0]
     (by decide) (by decide)).1.mpr (by decide)⟩

/-- Claim C6: encoding is total and deterministic with the fixed
little-endian layout — reading the encoded bytes back little-endian
recovers `maj` at 0..2, `min` at 2..4, `rev` at 4..6, `extra` at 6..8, the
commit value (or 0) at 8..12, and a presence word at 12..16 that is exactly
1 when the commit is present and 0 otherwise; in particular the encoding of
`parse("v0.9.8-760-gabcd1234")` is the expected 16-byte array. -/
theorem claim6_encode_layout (v : SemVer) (h1 : v.maj < 65536) (h2 : v.min < 65536)
    (h3 : v.rev < 65536) (h4 : v.extra < 65536)
    (h5 : ∀ c, v.commit = some c → c < 4294967296) :
    (encode v).length = 16 ∧
    u16fromLE ((encode v).getD 0 0) ((encode v).getD 1 0) = v.maj ∧
    u16fromLE ((encode v).getD 2 0) ((encode v).getD 3 0) = v.min ∧
    u16fromLE ((encode v).getD 4 0) ((encode v).getD 5 0) = v.rev ∧
    u16fromLE ((encode v).getD 6 0) ((encode v).getD 7 0) = v.extra ∧
    u32fromLE ((encode v).getD 8 0) ((encode v).getD 9 0)
      ((encode v).getD 10 0) ((encode v).getD 11 0) = v.commit.getD 0 ∧
    u32fromLE ((encode v).getD 12 0) ((encode v).getD 13 0)
      ((encode v).getD 14 0) ((encode v).getD 15 0) =
        (if v.commit.isSome then 1 else 0) ∧
    from_str "v0.9.8-760-gabcd1234" = .ok ⟨0, 9, 8, 760, some 0xabcd1234⟩ ∧
    encode ⟨0, 9, 8, 760, some 0xabcd1234⟩ =
      [0, 0, 9, 0, 8, 0, 248, 2, 0x34, 0x12, 0xcd, 0xab, 1, 0, 0, 0] := by
  obtain ⟨maj, mn, rv, ex, cm⟩ := v
  simp only at h1 h2 h3 h4
  cases cm with
  | none =>
    simp only [encode, u16le, u32le, u16fromLE, u32fromLE,
      Option.getD_none, Option.isSome_none]
    refine ⟨by simp, ?_, ?_, ?_, ?_, ?_, ?_, by decide, by decide⟩ <;> simp <;> omega
  | some c =>
    have hc : c < 4294967296 := h5 c rfl
    simp only [encode, u16le, u32le, u16fromLE, u32fromLE,
      Option.getD_some, Option.isSome_some]
    refine ⟨by simp, ?_, ?_, ?_, ?_, ?_, ?_, by decide, by decide⟩ <;> simp <;> omega

/-- Witness for claim C6 at the concrete value `{0,9,8,760,Some 0xabcd1234}`. -/
theorem claim6_witness :
    (0 : Nat) < 65536 ∧
      u16fromLE ((encode ⟨0, 9, 8, 760, some 0xabcd1234⟩).getD 0 0)
        ((encode ⟨0, 9, 8, 760, some 0xabcd1234⟩).getD 1 0) = 0 :=
  ⟨by decide,
   (claim6_encode_layout ⟨0, 9, 8, 760, some 0xabcd1234⟩ (by decide) (by decide) (by decide)
     (by decide) (by intro c hc; injection hc with h; omega)).2.1⟩

/-- A bitwise or where the low operand fits below the set bits of the high
operand is an addition. -/
lemma mul_pow_lor_eq_add (a b k : Nat) (h : b < 2 ^ k) :
    (a * 2 ^ k) ||| b = a * 2 ^ k + b := by
  rw [Nat.mul_comm a]
  exact (Nat.mul_add_lt_is_or h a).symm

/-- The packed `u64` of `Ord for SemVer` equals the weighted sum of the four
fields when each is in `u16` range. -/
lemma pack_eq_sum (v : SemVer) (h1 : v.maj < 65536) (h2 : v.min < 65536)
    (h3 : v.rev < 65536) (h4 : v.extra < 65536) :
    pack v = v.maj * 2 ^ 48 + v.min * 2 ^ 32 + v.rev * 2 ^ 16 + v.extra := by
  unfold pack
  rw [Nat.shiftLeft_eq, Nat.shiftLeft_eq, Nat.shiftLeft_eq]
  rw [mul_pow_lor_eq_add v.maj (v.min * 2 ^ 32) 48 (by omega)]
  rw [show v.maj * 2 ^ 48 + v.min * 2 ^ 32 = (v.maj * 2 ^ 16 + v.min) * 2 ^ 32 from by ring]
  rw [mul_pow_lor_eq_add (v.maj * 2 ^ 16 + v.min) (v.rev * 2 ^ 16) 32 (by omega)]
  rw [show (v.maj * 2 ^ 16 + v.min) * 2 ^ 32 + v.rev * 2 ^ 16 =
        ((v.maj * 2 ^ 16 + v.min) * 2 ^ 16 + v.rev) * 2 ^ 16 from by ring]
  rw [mul_pow_lor_eq_add ((v.maj * 2 ^ 16 + v.min) * 2 ^ 16 + v.rev) v.extra 16 (by omega)]
  have hlt : ((v.maj * 2 ^ 16 + v.min) * 2 ^ 16 + v.rev) * 2 ^ 16 + v.extra < 2 ^ 64 := by
    have := Nat.mul_le_mul_right (2 ^ 16)
      (show v.maj * 2 ^ 16 + v.min ≤ 2 ^ 32 - 1 by omega)
    have := Nat.mul_le_mul_right (2 ^ 16)
      (show (v.maj * 2 ^ 16 + v.min) * 2 ^ 16 + v.rev ≤ 2 ^ 48 - 1 by omega)
    omega
  rw [Nat.mod_eq_of_lt hlt]

/-- `rcmp` of two weighted sums of bounded 4-tuples is the lexicographic
comparison of the tuples. -/
lemma rcmp_sum_eq_lex (a1 b1 c1 d1 a2 b2 c2 d2 : Nat)
    (_ha1 : a1 < 65536) (hb1 : b1 < 65536) (hc1 : c1 < 65536) (hd1 : d1 < 65536)
    (_ha2 : a2 < 65536) (hb2 : b2 < 65536) (hc2 : c2 < 65536) (hd2 : d2 < 65536) :
    rcmp (a1 * 2 ^ 48 + b1 * 2 ^ 32 + c1 * 2 ^ 16 + d1)
        (a2 * 2 ^ 48 + b2 * 2 ^ 32 + c2 * 2 ^ 16 + d2) =
      lexCmpSpec a1 b1 c1 d1 a2 b2 c2 d2 := by
  simp only [lexCmpSpec, rcmp]
  split_ifs <;> first | rfl | (exfalso; omega)

/-- Claim C4: the comparison of two `VersionTag`s is the lexicographic order
of the `(major, minor, patch, distance)` 4-tuples and is independent of
both commit fields, while the equality additionally requires the commit
fields to match — values agreeing on the 4-tuple but differing in commit
compare `eq` under the ordering yet are unequal under the equality. -/
theorem claim4_order_lex_eq_commit (v w : SemVer)
    (h1 : v.maj < 65536) (h2 : v.min < 65536) (h3 : v.rev < 65536) (h4 : v.extra < 65536)
    (h5 : w.maj < 65536) (h6 : w.min < 65536) (h7 : w.rev < 65536) (h8 : w.extra < 65536) :
    (semver_cmp v w = lexCmpSpec v.maj v.min v.rev v.extra w.maj w.min w.rev w.extra) ∧
    (∀ c1 c2 : Option Nat,
      semver_cmp { v with commit := c1 } { w with commit := c2 } = semver_cmp v w) ∧
    (v.maj = w.maj → v.min = w.min → v.rev = w.rev → v.extra = w.extra →
      v.commit ≠ w.commit → semver_cmp v w = .eq ∧ semver_eq v w = false) := by
  refine ⟨?_, fun c1 c2 => rfl, ?_⟩
  · unfold semver_cmp
    rw [pack_eq_sum v h1 h2 h3 h4, pack_eq_sum w h5 h6 h7 h8]
    exact rcmp_sum_eq_lex v.maj v.min v.rev v.extra w.maj w.min w.rev w.extra
      h1 h2 h3 h4 h5 h6 h7 h8
  · intro hmaj hmin hrev hextra hcm
    constructor
    · show rcmp (pack v) (pack w) = .eq
      have hpp : pack v = pack w := by
        unfold pack
        rw [hmaj, hmin, hrev, hextra]
      rw [hpp]
      simp [rcmp]
    · simp only [semver_eq, hmaj, hmin, hrev, hextra, beq_self_eq_true, Bool.true_and]
      exact beq_eq_false_iff_ne.mpr hcm

/-- Witness for claim C4 at `{0,9,8,760,Some 0xabcd1234}` versus
`{0,9,8,760,None}`: equal under the ordering, unequal under the equality. -/
theorem claim4_witness :
    (0 : Nat) < 65536 ∧
      (semver_cmp ⟨0, 9, 8, 760, some 0xabcd1234⟩ ⟨0, 9, 8, 760, none⟩ = .eq ∧
        semver_eq ⟨0, 9, 8, 760, some 0xabcd1234⟩ ⟨0, 9, 8, 760, none⟩ = false) :=
  ⟨by decide,
   (claim4_order_lex_eq_commit ⟨0, 9, 8, 760, some 0xabcd1234⟩ ⟨0, 9, 8, 760, none⟩
       (by decide) (by decide) (by decide) (by decide)
       (by decide) (by decide) (by decide) (by decide)).2.2
     rfl rfl rfl rfl (by decide)⟩

/-- String append is list append on the underlying character data. -/
lemma mk_append (a b : List Char) : String.mk a ++ String.mk b = String.mk (a ++ b) :=
  rfl

/-- Claim C10: formatting is infallible and canonical — every `VersionTag`
formats as `v{major}.{minor}.{patch}-{distance}` with `-g{lowercase hex,
unpadded}` appended exactly when the commit is present, matching the
spec-side `canonicalFormat`; the two spec examples evaluate as stated. -/
theorem claim10_format :
    (∀ v : SemVer, to_string v = canonicalFormat v) ∧
      to_string ⟨0, 9, 8, 42, none⟩ = "v0.9.8-42" ∧
      to_string ⟨0, 9, 8, 42, some 0x123abc⟩ = "v0.9.8-42-g123abc" := by
  refine ⟨fun v => ?_, by decide, by decide⟩
  obtain ⟨maj, mn, rv, ex, cm⟩ := v
  cases cm with
  | none =>
    simp only [to_string, canonicalFormat]
    rw [show ("v" : String) = String.mk ['v'] from rfl,
      show ("." : String) = String.mk ['.'] from rfl,
      show ("-" : String) = String.mk ['-'] from rfl]
    simp only [mk_append]
    congr 1
    simp
  | some c =>
    simp only [to_string, canonicalFormat]
    rw [show ("v" : String) = String.mk ['v'] from rfl,
      show ("." : String) = String.mk ['.'] from rfl,
      show ("-" : String) = String.mk ['-'] from rfl,
      show ("-g" : String) = String.mk ['-', 'g'] from rfl]
    simp only [mk_append]
    congr 1
    simp

end XousSemver
